import Mathlib

/-!
Portmaster: decider chaining, self-traffic filter and encryption detection.

A shallow embedding of

* `plugin/framework/utils.go`: `DeciderFunc`, `ChainDeciders`, `ChainDeciderFunc`,
  `getExecPath`, `IsSelf`, `AllowPluginConnections`;
* `firewall/inspection/encryption/detect.go`: `Detector.HandlePacket`.

Go functions that read or write memory are written in state-passing style: a
call receives the memory it runs in and returns the memory it leaves behind.
A call that does not return (a panic, such as a method call on a nil interface
value) yields `none`.
-/

namespace Portmaster

/-! ## Errors -/

/-- A non-nil Go `error` value. `text` is an error with the given message;
`wrapf pre inner` is what `fmt.Errorf(pre + "%w", inner)` builds: it wraps
`inner` and its message is `pre` followed by the message of `inner`. -/
inductive GoError where
  | text (message : String)
  | wrapf (pre : String) (inner : GoError)
deriving DecidableEq, Repr

/-- The `Error()` method. -/
def GoError.Error : GoError → String
  | .text message => message
  | .wrapf pre inner => pre ++ inner.Error

/-- The value of `fmt.Errorf("chained decider at index %d return VERDICT_FAILED", idx)`:
the verb `%d` prints the index in decimal. -/
def errChainedFailed (idx : Nat) : GoError :=
  .text ("chained decider at index " ++ Nat.repr idx ++ " return VERDICT_FAILED")

/-- The value of `fmt.Errorf("failed to get executable path: %w", err)`. For a nil
operand the verb `%w` prints `%!w(<nil>)` and nothing is wrapped. -/
def errGetExecutable : Option GoError → GoError
  | some e => .wrapf "failed to get executable path: " e
  | none => .text "failed to get executable path: %!w(<nil>)"

/-! ## The plugin data model -/

/-- Modelled from the spec: the `proto.Verdict` enumeration, whose generated
declaration is not among the sources. The spec lists `Undecided`,
`Undeterminable`, `Accept`, `Block`, `Drop`, `Failed` "plus any domain-specific
extensions"; `extension n` stands for every other value of the enumeration. -/
inductive Verdict where
  | VERDICT_UNDECIDED
  | VERDICT_UNDETERMINABLE
  | VERDICT_FAILED
  | VERDICT_ACCEPT
  | VERDICT_DROP
  | VERDICT_BLOCK
  | extension (value : Nat)
deriving DecidableEq, Repr

/-- Modelled from the spec: the process descriptor of a `proto.Connection`
("owning process descriptor (binary path, PID)"); its declaration is not among
the sources. -/
structure Process where
  BinaryPath : String
  Pid : Nat
deriving DecidableEq, Repr

/-- Modelled from the spec: the `proto.Connection` message, reduced to the one
part `utils.go` reads, the optional process descriptor. Whatever else a decider
reads from a connection is part of `Mem.rest`. -/
structure Connection where
  Process : Option Process
deriving DecidableEq, Repr

/-- Modelled from the spec: the generated getter `(*proto.Connection).GetProcess`,
which is not among the sources; as generated getters do, it returns nil for a nil
receiver. -/
def Connection.GetProcess : Option Connection → Option Portmaster.Process
  | some c => c.Process
  | none => none

/-- Modelled from the spec: the generated getter `(*proto.Process).GetBinaryPath`,
which is not among the sources; as generated getters do, it returns the empty
string for a nil receiver. -/
def Process.GetBinaryPath : Option Process → String
  | some p => p.BinaryPath
  | none => ""

/-- The package-level variables `getExecPathOnce`, `executablePath`,
`resolvedExecutablePath` and `errGetExecPath` of `utils.go`. `onceDone` says
whether `getExecPathOnce` has already run its function. -/
structure ExecPathVars where
  onceDone : Bool
  executablePath : String
  resolvedExecutablePath : String
  errGetExecPath : Option GoError
deriving DecidableEq, Repr

/-- The variables as the Go runtime initialises them. -/
def ExecPathVars.zero : ExecPathVars :=
  { onceDone := false, executablePath := "", resolvedExecutablePath := "", errGetExecPath := none }

/-- The two operating-system calls `getExecPath` makes: what `os.Executable()`
returns and what `filepath.EvalSymlinks` returns for a path. -/
structure OS where
  Executable : String × Option GoError
  EvalSymlinks : String → String × Option GoError

/-- The memory a decider call runs in: the message behind its `*proto.Connection`
argument (`none` for a nil pointer), the package variables of `utils.go`, and the
rest of the process state (`rest`), which the framework never looks at. -/
structure Mem (σ : Type) where
  conn : Option Connection
  vars : ExecPathVars
  rest : σ

/-- What a decider call returns, `(proto.Verdict, string, error)`, together with
the memory it leaves behind. -/
structure DecideOut (σ : Type) where
  verdict : Verdict
  reason : String
  err : Option GoError
  mem : Mem σ

/-- The type `DeciderFunc`: `func(context.Context, *proto.Connection) (proto.Verdict, string, error)`.
`χ` is the type of contexts. The result is `none` when the call does not return. -/
abbrev DeciderFunc (χ σ : Type) : Type := χ → Mem σ → Option (DecideOut σ)

/-- The interface `decider.Decider`: a value with a method `DecideOnConnection`. -/
structure Decider (χ σ : Type) where
  DecideOnConnection : χ → Mem σ → Option (DecideOut σ)

/-- The zero value of the interface type: calling its method panics. -/
def Decider.nil {χ σ : Type} : Decider χ σ :=
  { DecideOnConnection := fun _ _ => none }

/-- The method `func (fn DeciderFunc) DecideOnConnection(ctx, conn)`: `return fn(ctx, conn)`. -/
def DeciderFunc.DecideOnConnection {χ σ : Type} (fn : DeciderFunc χ σ) (ctx : χ) (m : Mem σ) :
    Option (DecideOut σ) :=
  fn ctx m

/-- A `DeciderFunc` stored in a variable of type `decider.Decider`. -/
def DeciderFunc.toDecider {χ σ : Type} (fn : DeciderFunc χ σ) : Decider χ σ :=
  { DecideOnConnection := fn.DecideOnConnection }

/-! ## ChainDeciders -/

/-- The `for idx, d := range deciders` loop of `ChainDeciders`, from index `idx`
on, with `ds` the deciders not yet visited. Besides the returned triple and
memory it reports `calls`, the indices of the deciders it has invoked, in order
of invocation. -/
def chainLoop {χ σ : Type} (ctx : χ) :
    Nat → List (Decider χ σ) → Mem σ → List Nat → Option (DecideOut σ × List Nat)
  | _, [], m, calls =>
      some ({ verdict := .VERDICT_UNDECIDED, reason := "", err := none, mem := m }, calls)
  | idx, d :: rest, m, calls =>
      match d.DecideOnConnection ctx m with
      | none => none
      | some r =>
        match r.err with
        | some e =>
            some ({ verdict := r.verdict, reason := r.reason, err := some e, mem := r.mem },
              calls ++ [idx])
        | none =>
          match r.verdict with
          | .VERDICT_UNDECIDED => chainLoop ctx (idx + 1) rest r.mem (calls ++ [idx])
          | .VERDICT_UNDETERMINABLE => chainLoop ctx (idx + 1) rest r.mem (calls ++ [idx])
          | .VERDICT_FAILED =>
              some ({ verdict := r.verdict, reason := r.reason,
                      err := some (errChainedFailed idx), mem := r.mem }, calls ++ [idx])
          | _ =>
              some ({ verdict := r.verdict, reason := r.reason, err := none, mem := r.mem },
                calls ++ [idx])

/-- The function returned by `ChainDeciders(deciders...)`, with the list of
decider indices it invokes. -/
def ChainDecidersTraced {χ σ : Type} (deciders : List (Decider χ σ)) (ctx : χ) (m : Mem σ) :
    Option (DecideOut σ × List Nat) :=
  chainLoop ctx 0 deciders m []

/-- `ChainDeciders(deciders...)`. -/
def ChainDeciders {χ σ : Type} (deciders : List (Decider χ σ)) : DeciderFunc χ σ :=
  fun ctx m => (ChainDecidersTraced deciders ctx m).map Prod.fst

/-- The slice `deciders` of `ChainDeciderFunc` after
`deciders := make([]decider.Decider, len(fns))` and the loop
`for idx, fn := range fns { deciders[idx] = fn }`. -/
def boxDeciderFuncs {χ σ : Type} (fns : List (DeciderFunc χ σ)) : List (Decider χ σ) :=
  fns.enum.foldl (fun deciders p => deciders.set p.1 p.2.toDecider)
    (List.replicate fns.length Decider.nil)

/-- The function returned by `ChainDeciderFunc(fns...)`, with the list of
indices it invokes. -/
def ChainDeciderFuncTraced {χ σ : Type} (fns : List (DeciderFunc χ σ)) (ctx : χ) (m : Mem σ) :
    Option (DecideOut σ × List Nat) :=
  ChainDecidersTraced (boxDeciderFuncs fns) ctx m

/-- `ChainDeciderFunc(fns...)`: `return ChainDeciders(deciders...)`. -/
def ChainDeciderFunc {χ σ : Type} (fns : List (DeciderFunc χ σ)) : DeciderFunc χ σ :=
  ChainDeciders (boxDeciderFuncs fns)

/-! ## The self-traffic filter -/

/-- `getExecPath()`: the function passed to `getExecPathOnce.Do` runs on the first
call only. -/
def getExecPath (os : OS) (g : ExecPathVars) : ExecPathVars :=
  if g.onceDone then g
  else
    let g1 : ExecPathVars :=
      { g with onceDone := true, executablePath := os.Executable.1,
               errGetExecPath := os.Executable.2 }
    match g1.errGetExecPath with
    | some _ => g1
    | none =>
      { g1 with resolvedExecutablePath := (os.EvalSymlinks g1.executablePath).1,
                errGetExecPath := (os.EvalSymlinks g1.executablePath).2 }

/-- `IsSelf(conn)`: the returned `(bool, error)` and the package variables after the call. -/
def IsSelf (os : OS) (g : ExecPathVars) (conn : Option Connection) :
    (Bool × Option GoError) × ExecPathVars :=
  let g1 := getExecPath os g
  let binary := Process.GetBinaryPath (Connection.GetProcess conn)
  match g1.errGetExecPath with
  | some e => ((false, some e), g1)
  | none =>
    if binary = g1.resolvedExecutablePath ∨ binary = g1.executablePath then ((true, none), g1)
    else ((false, none), g1)

/-- `AllowPluginConnections()`. -/
def AllowPluginConnections {χ σ : Type} (os : OS) : DeciderFunc χ σ :=
  fun _ctx m =>
    let r := IsSelf os m.vars m.conn
    let m1 : Mem σ := { m with vars := r.2 }
    match r.1.2 with
    | some _ =>
        some { verdict := .VERDICT_UNDECIDED, reason := "",
               err := some (errGetExecutable m1.vars.errGetExecPath), mem := m1 }
    | none =>
      if r.1.1 then
        some { verdict := .VERDICT_ACCEPT, reason := "own plugin connections are allowed",
               err := none, mem := m1 }
      else
        some { verdict := .VERDICT_UNDECIDED, reason := "", err := none, mem := m1 }

/-! ## Vocabulary for the chain properties -/

/-- A decider result that lets the loop of `ChainDeciders` go on: a nil error and
the verdict `VERDICT_UNDECIDED` or `VERDICT_UNDETERMINABLE`. -/
def DecideOut.abstains {σ : Type} (r : DecideOut σ) : Prop :=
  r.err = none ∧ (r.verdict = .VERDICT_UNDECIDED ∨ r.verdict = .VERDICT_UNDETERMINABLE)

/-- What decider number `j` of `ds` returns when the deciders `0, …, j` are invoked
one after the other, the first of them in memory `m` and each next one in the
memory its predecessor left behind. `none` when there is no decider `j` or one
of these calls does not return. -/
def callAt {χ σ : Type} (ctx : χ) : List (Decider χ σ) → Mem σ → Nat → Option (DecideOut σ)
  | [], _, _ => none
  | d :: _, m, 0 => d.DecideOnConnection ctx m
  | d :: rest, m, j + 1 =>
      match d.DecideOnConnection ctx m with
      | none => none
      | some a => callAt ctx rest a.mem j

/-- The memory left behind when the first `j` deciders of `ds` have been invoked one
after the other, starting in memory `m`. -/
def memAfter {χ σ : Type} (ctx : χ) : List (Decider χ σ) → Mem σ → Nat → Option (Mem σ)
  | _, m, 0 => some m
  | [], _, _ + 1 => none
  | d :: rest, m, j + 1 =>
      match d.DecideOnConnection ctx m with
      | none => none
      | some a => memAfter ctx rest a.mem j

/-- Whether a decider result abstains can be computed. -/
instance DecideOut.decidableAbstains {σ : Type} (r : DecideOut σ) : Decidable r.abstains := by
  unfold DecideOut.abstains
  infer_instance

/-- The least index whose decider, invoked after its predecessors as in `callAt`,
does not abstain, that is, returns a non-nil error or a verdict other than
Undecided and Undeterminable; the length of the list when every decider
abstains. A call that does not return counts as not abstaining. -/
def firstNonAbstaining {χ σ : Type} (ctx : χ) : List (Decider χ σ) → Mem σ → Nat
  | [], _ => 0
  | d :: rest, m =>
      match d.DecideOnConnection ctx m with
      | none => 0
      | some a => if a.abstains then firstNonAbstaining ctx rest a.mem + 1 else 0

/-- The answer the specification gives for `IsSelf`, from the result of the one-time
initialisation: with a cached error, `false` and that error; otherwise whether
the binary path of the connection equals the raw or the resolved executable path. -/
def isSelfSpec (executablePath resolvedExecutablePath : String) (errGetExecPath : Option GoError)
    (conn : Option Connection) : Bool × Option GoError :=
  match errGetExecPath with
  | some e => (false, some e)
  | none =>
    (decide (Process.GetBinaryPath (Connection.GetProcess conn) = executablePath
      ∨ Process.GetBinaryPath (Connection.GetProcess conn) = resolvedExecutablePath), none)

/-! ## Encryption detection -/

/-- Modelled from the spec: the `network.Verdict` enumeration of the host, whose
declaration is not among the sources. -/
inductive NetVerdict where
  | VerdictUndecided
  | VerdictUndeterminable
  | VerdictAccept
  | VerdictBlock
  | VerdictDrop
  | VerdictFailed
  | extension (value : Nat)
deriving DecidableEq, Repr

/-- Modelled from the spec: the remote entity of a connection ("address, port,
optional domain"); its declaration is not among the sources. -/
structure Entity where
  IP : String
  Port : Nat
  Domain : Option String
deriving DecidableEq, Repr

/-- Modelled from the spec: `network.Connection`, whose declaration is not among the
sources: "direction, remote entity, owning process descriptor, mutable
inspection flags (e.g. `Encrypted bool`), and a verdict-with-reason pair". -/
structure NetConnection where
  Inbound : Bool
  Entity : Entity
  Process : Process
  Encrypted : Bool
  Verdict : NetVerdict
  Reason : String
deriving DecidableEq, Repr

/-- The memory a packet handler runs in: the connection behind its
`*network.Connection` argument and the number of persistence requests issued
for it so far. -/
structure InspectMem where
  conn : NetConnection
  saveRequests : Nat
deriving DecidableEq, Repr

/-- Modelled from the spec: `(*network.Connection).SaveWhenFinished`, whose body is
not among the sources. The spec calls it the explicit "save" signal that
requests the connection be persisted; each call is counted as one request. -/
def SaveWhenFinished (s : InspectMem) : InspectMem :=
  { s with saveRequests := s.saveRequests + 1 }

/-- The type `Detector struct{}`. -/
structure Detector where
deriving DecidableEq, Repr

/-- What `HandlePacket` returns, `(network.Verdict, network.VerdictReason, error)`,
with the memory it leaves behind. A nil reason is `none`. -/
structure HandleOut where
  verdict : NetVerdict
  reason : Option String
  err : Option GoError
  mem : InspectMem
deriving DecidableEq, Repr

/-- `(*Detector).HandlePacket(conn, pkt)`; `P` is the type of packets. -/
def Detector.HandlePacket {P : Type} (_d : Detector) (s : InspectMem) (_pkt : P) : HandleOut :=
  let s1 : InspectMem :=
    if !s.conn.Inbound then
      match s.conn.Entity.Port with
      | 443 | 465 | 993 | 995 =>
          SaveWhenFinished { s with conn := { s.conn with Encrypted := true } }
      | _ => s
    else s
  { verdict := .VerdictUndeterminable, reason := none, err := none, mem := s1 }

/-! ## Sample inputs -/

/-- A decider that returns the given triple and leaves the memory as it is. -/
def constDecider (v : Verdict) (reason : String) (err : Option GoError) : Decider Unit Unit :=
  { DecideOnConnection := fun _ m => some { verdict := v, reason := reason, err := err, mem := m } }

/-- A memory with a nil connection and freshly initialised package variables. -/
def sampleMem : Mem Unit :=
  { conn := none, vars := ExecPathVars.zero, rest := () }

/-- The chain `[D1 → Undeterminable, D2 → Accept("own"), D3 → Block]`. -/
def sampleChainAccept : List (Decider Unit Unit) :=
  [constDecider .VERDICT_UNDETERMINABLE "" none, constDecider .VERDICT_ACCEPT "own" none,
   constDecider .VERDICT_BLOCK "" none]

/-- A transport error. -/
def transportErr : GoError := .text "transport is closing"

/-- The chain `[D1 → Undecided, D2 → (Undeterminable, "", transportErr)]`. -/
def sampleChainError : List (Decider Unit Unit) :=
  [constDecider .VERDICT_UNDECIDED "" none,
   constDecider .VERDICT_UNDETERMINABLE "" (some transportErr)]

/-- The chain `[D1 → Undecided, D2 → Failed("broken"), D3 → Accept]`. -/
def sampleChainFailed : List (Decider Unit Unit) :=
  [constDecider .VERDICT_UNDECIDED "" none, constDecider .VERDICT_FAILED "broken" none,
   constDecider .VERDICT_ACCEPT "" none]

/-- The chain `[D1 → Undeterminable("no rule"), D2 → Undeterminable("offline")]`. -/
def sampleChainAbstain : List (Decider Unit Unit) :=
  [constDecider .VERDICT_UNDETERMINABLE "no rule" none,
   constDecider .VERDICT_UNDETERMINABLE "offline" none]

/-- The chain `[D1 → (Accept, "", transportErr)]`: a call that fails while its
verdict says accept. -/
def sampleChainAcceptError : List (Decider Unit Unit) :=
  [constDecider .VERDICT_ACCEPT "" (some transportErr)]

/-- An operating system on which the executable is `/usr/bin/plugin`, a symlink to
`/opt/plugin/plugin`. -/
def sampleOS : OS :=
  { Executable := ("/usr/bin/plugin", none)
    EvalSymlinks := fun p => (if p = "/usr/bin/plugin" then "/opt/plugin/plugin" else p, none) }

/-- An operating system on which resolving symlinks fails. -/
def brokenOS : OS :=
  { Executable := ("/usr/bin/plugin", none)
    EvalSymlinks := fun _ => ("", some (.text "lstat /usr/bin/plugin: permission denied")) }

/-- A connection of the process whose binary is `/usr/bin/plugin`. -/
def ownConn : Connection :=
  { Process := some { BinaryPath := "/usr/bin/plugin", Pid := 4242 } }

/-- A memory holding `ownConn` and freshly initialised package variables. -/
def ownMem : Mem Unit :=
  { conn := some ownConn, vars := ExecPathVars.zero, rest := () }

/-- An outbound connection to port 443, not yet marked encrypted. -/
def sampleOutbound : InspectMem :=
  { conn := { Inbound := false, Entity := { IP := "93.184.216.34", Port := 443, Domain := none },
              Process := { BinaryPath := "/usr/bin/curl", Pid := 77 }, Encrypted := false,
              Verdict := .VerdictAccept, Reason := "allowed" },
    saveRequests := 0 }

/-- An inbound connection from port 443. -/
def sampleInbound : InspectMem :=
  { conn := { Inbound := true, Entity := { IP := "93.184.216.34", Port := 443, Domain := none },
              Process := { BinaryPath := "/usr/bin/curl", Pid := 77 }, Encrypted := false,
              Verdict := .VerdictAccept, Reason := "allowed" },
    saveRequests := 0 }

/-! ## Lemmas about the loops and the cached executable path -/

section Lemmas

variable {χ σ : Type}

theorem callAt_cons_succ (ctx : χ) (d : Decider χ σ) (rest : List (Decider χ σ)) (m : Mem σ)
    (a : DecideOut σ) (h : d.DecideOnConnection ctx m = some a) (j : Nat) :
    callAt ctx (d :: rest) m (j + 1) = callAt ctx rest a.mem j := by
  simp [callAt, h]

theorem chainLoop_abstain (ctx : χ) (idx : Nat) (d : Decider χ σ) (rest : List (Decider χ σ))
    (m : Mem σ) (calls : List Nat) (a : DecideOut σ)
    (h : d.DecideOnConnection ctx m = some a) (ha : a.abstains) :
    chainLoop ctx idx (d :: rest) m calls = chainLoop ctx (idx + 1) rest a.mem (calls ++ [idx]) := by
  obtain ⟨he, hv⟩ := ha
  rcases hv with hv | hv <;> simp [chainLoop, h, he, hv]

/-- While the deciders abstain the loop only moves on: it reaches decider `i` in the
memory the abstaining deciders left, having invoked `idx, …, idx + i - 1`. -/
theorem chainLoop_skip (ctx : χ) :
    ∀ (ds : List (Decider χ σ)) (i idx : Nat) (m : Mem σ) (calls : List Nat) (r : DecideOut σ),
      (∀ j, j < i → ∃ a, callAt ctx ds m j = some a ∧ a.abstains) →
      callAt ctx ds m i = some r →
      ∃ d rest m1, ds.drop i = d :: rest ∧ d.DecideOnConnection ctx m1 = some r ∧
        chainLoop ctx idx ds m calls
          = chainLoop ctx (idx + i) (d :: rest) m1 (calls ++ List.range' idx i) := by
  intro ds
  induction ds with
  | nil => intro i idx m calls r _ hi; simp [callAt] at hi
  | cons d rest ih =>
    intro i idx m calls r hpre hi
    cases i with
    | zero =>
      refine ⟨d, rest, m, rfl, ?_, ?_⟩
      · simpa [callAt] using hi
      · simp
    | succ i =>
      obtain ⟨a, ha0, hab⟩ := hpre 0 (Nat.succ_pos i)
      have hd : d.DecideOnConnection ctx m = some a := by simpa [callAt] using ha0
      have hpre1 : ∀ j, j < i → ∃ b, callAt ctx rest a.mem j = some b ∧ b.abstains := by
        intro j hj
        obtain ⟨b, hb, hbb⟩ := hpre (j + 1) (Nat.succ_lt_succ hj)
        exact ⟨b, by rw [← callAt_cons_succ ctx d rest m a hd j]; exact hb, hbb⟩
      have hi1 : callAt ctx rest a.mem i = some r := by
        rw [← callAt_cons_succ ctx d rest m a hd i]; exact hi
      obtain ⟨d1, rest1, m1, hdrop, hcall, hloop⟩ :=
        ih i (idx + 1) a.mem (calls ++ [idx]) r hpre1 hi1
      refine ⟨d1, rest1, m1, by simpa using hdrop, hcall, ?_⟩
      rw [chainLoop_abstain ctx idx d rest m calls a hd hab, hloop]
      congr 1
      · omega
      · simp [List.range'_succ]

/-- When every decider abstains the loop runs to the end of the list. -/
theorem chainLoop_all_abstain (ctx : χ) :
    ∀ (ds : List (Decider χ σ)) (idx : Nat) (m : Mem σ) (calls : List Nat),
      (∀ j, j < ds.length → ∃ a, callAt ctx ds m j = some a ∧ a.abstains) →
      ∃ m1, memAfter ctx ds m ds.length = some m1 ∧
        chainLoop ctx idx ds m calls
          = some ({ verdict := .VERDICT_UNDECIDED, reason := "", err := none, mem := m1 },
              calls ++ List.range' idx ds.length) := by
  intro ds
  induction ds with
  | nil => intro idx m calls _; exact ⟨m, rfl, by simp [chainLoop]⟩
  | cons d rest ih =>
    intro idx m calls h
    obtain ⟨a, ha0, hab⟩ := h 0 (by simp)
    have hd : d.DecideOnConnection ctx m = some a := by simpa [callAt] using ha0
    have h1 : ∀ j, j < rest.length → ∃ b, callAt ctx rest a.mem j = some b ∧ b.abstains := by
      intro j hj
      obtain ⟨b, hb, hbb⟩ := h (j + 1) (by simpa using hj)
      exact ⟨b, by rw [← callAt_cons_succ ctx d rest m a hd j]; exact hb, hbb⟩
    obtain ⟨m1, hm1, hloop⟩ := ih (idx + 1) a.mem (calls ++ [idx]) h1
    refine ⟨m1, by simpa [memAfter, hd] using hm1, ?_⟩
    rw [chainLoop_abstain ctx idx d rest m calls a hd hab, hloop]
    simp [List.range'_succ]

/-- Every way the loop can return: either all deciders abstained, or some decider
`i` was the first not to abstain and the loop returned what that decider
returned, with the error replaced when the decider said Failed without one. -/
theorem chainLoop_inv (ctx : χ) :
    ∀ (ds : List (Decider χ σ)) (idx : Nat) (m : Mem σ) (calls : List Nat)
      (out : DecideOut σ) (calls1 : List Nat),
      chainLoop ctx idx ds m calls = some (out, calls1) →
      (out.verdict = .VERDICT_UNDECIDED ∧ out.reason = "" ∧ out.err = none
          ∧ (∀ j, j < ds.length → ∃ a, callAt ctx ds m j = some a ∧ a.abstains)
          ∧ calls1 = calls ++ List.range' idx ds.length)
        ∨ ∃ i r, i < ds.length
            ∧ (∀ j, j < i → ∃ a, callAt ctx ds m j = some a ∧ a.abstains)
            ∧ callAt ctx ds m i = some r ∧ ¬ r.abstains
            ∧ out.verdict = r.verdict ∧ out.reason = r.reason ∧ out.mem = r.mem
            ∧ (out.err = r.err
                ∨ (r.err = none ∧ r.verdict = .VERDICT_FAILED
                    ∧ out.err = some (errChainedFailed (idx + i))))
            ∧ calls1 = calls ++ List.range' idx (i + 1) := by
  intro ds
  induction ds with
  | nil =>
    intro idx m calls out calls1 h
    simp only [chainLoop, Option.some.injEq, Prod.mk.injEq] at h
    obtain ⟨h1, h2⟩ := h
    subst h1 h2
    exact Or.inl ⟨rfl, rfl, rfl, by simp, by simp⟩
  | cons d rest ih =>
    intro idx m calls out calls1 h
    cases hd : d.DecideOnConnection ctx m with
    | none => simp [chainLoop, hd] at h
    | some a =>
      by_cases hab : a.abstains
      · rw [chainLoop_abstain ctx idx d rest m calls a hd hab] at h
        rcases ih (idx + 1) a.mem (calls ++ [idx]) out calls1 h with
          ⟨hv, hr, he, hall, hc⟩ | ⟨i, r, hi, hpre, hcall, hnot, hv, hr, hm, he, hc⟩
        · refine Or.inl ⟨hv, hr, he, ?_, by simp [hc, List.range'_succ]⟩
          intro j hj
          cases j with
          | zero => exact ⟨a, by simpa [callAt] using hd, hab⟩
          | succ j =>
            rw [callAt_cons_succ ctx d rest m a hd j]
            exact hall j (by simpa using hj)
        · refine Or.inr ⟨i + 1, r, by simpa using hi, ?_, ?_, hnot, hv, hr, hm, ?_, ?_⟩
          · intro j hj
            cases j with
            | zero => exact ⟨a, by simpa [callAt] using hd, hab⟩
            | succ j =>
              rw [callAt_cons_succ ctx d rest m a hd j]
              exact hpre j (by omega)
          · rw [callAt_cons_succ ctx d rest m a hd i]; exact hcall
          · rcases he with he | ⟨h1, h2, h3⟩
            · exact Or.inl he
            · exact Or.inr ⟨h1, h2, by rw [h3]; congr 2; omega⟩
          · rw [hc, List.range'_succ idx (i + 1)]; simp
      · refine Or.inr ⟨0, a, by simp, by simp, by simpa [callAt] using hd, hab, ?_⟩
        cases hae : a.err with
        | some e =>
          simp only [chainLoop, hd, hae, Option.some.injEq, Prod.mk.injEq] at h
          obtain ⟨h1, h2⟩ := h
          subst h1 h2
          simp
        | none =>
          have hnv : a.verdict ≠ .VERDICT_UNDECIDED ∧ a.verdict ≠ .VERDICT_UNDETERMINABLE := by
            constructor <;> intro hv <;> exact hab ⟨hae, by simp [hv]⟩
          cases hav : a.verdict <;>
            simp only [chainLoop, hd, hae, hav, Option.some.injEq, Prod.mk.injEq] at h <;>
            first
              | (exfalso; simp [hav] at hnv; done)
              | (obtain ⟨h1, h2⟩ := h; subst h1 h2; simp)

/-- The copy loop of `ChainDeciderFunc`, started at index `k` on a slice whose first
`k` slots are already filled, fills the remaining slots in order. -/
theorem fill_enumFrom (fns : List (DeciderFunc χ σ)) :
    ∀ (k : Nat) (filled : List (Decider χ σ)), filled.length = k →
      (fns.enumFrom k).foldl (fun deciders p => deciders.set p.1 p.2.toDecider)
          (filled ++ List.replicate fns.length Decider.nil)
        = filled ++ fns.map DeciderFunc.toDecider := by
  induction fns with
  | nil => intro k filled _; simp
  | cons fn fns ih =>
    intro k filled hk
    have hset : (filled ++ List.replicate (fn :: fns).length Decider.nil).set k fn.toDecider
        = (filled ++ [fn.toDecider]) ++ List.replicate fns.length Decider.nil := by
      rw [List.set_append_right k fn.toDecider (by omega)]
      simp [hk, List.replicate_succ]
    rw [List.enumFrom_cons, List.foldl_cons, hset, ih (k + 1) (filled ++ [fn.toDecider]) (by simp [hk])]
    simp

theorem boxDeciderFuncs_eq_map (fns : List (DeciderFunc χ σ)) :
    boxDeciderFuncs fns = fns.map DeciderFunc.toDecider := by
  have h := fill_enumFrom fns 0 [] rfl
  simpa [boxDeciderFuncs, List.enum] using h

theorem getExecPath_onceDone (os : OS) (g : ExecPathVars) : (getExecPath os g).onceDone = true := by
  unfold getExecPath
  by_cases h : g.onceDone = true
  · simp [h]
  · simp only [h, Bool.false_eq_true, if_false]
    split <;> rfl

theorem getExecPath_idem (os os2 : OS) (g : ExecPathVars) :
    getExecPath os2 (getExecPath os g) = getExecPath os g := by
  have h := getExecPath_onceDone os g
  generalize getExecPath os g = g1 at h
  simp [getExecPath, h]

theorem IsSelf_eq_spec (os : OS) (g : ExecPathVars) (conn : Option Connection) :
    IsSelf os g conn
      = (isSelfSpec (getExecPath os g).executablePath (getExecPath os g).resolvedExecutablePath
          (getExecPath os g).errGetExecPath conn, getExecPath os g) := by
  unfold IsSelf isSelfSpec
  cases he : (getExecPath os g).errGetExecPath with
  | some e => simp [he]
  | none =>
    by_cases hb : Process.GetBinaryPath (Connection.GetProcess conn)
          = (getExecPath os g).resolvedExecutablePath
        ∨ Process.GetBinaryPath (Connection.GetProcess conn) = (getExecPath os g).executablePath
    · simp [he, hb, Or.comm.mp hb]
    · have hb2 : ¬ (Process.GetBinaryPath (Connection.GetProcess conn)
            = (getExecPath os g).executablePath
          ∨ Process.GetBinaryPath (Connection.GetProcess conn)
            = (getExecPath os g).resolvedExecutablePath) := fun h => hb (Or.comm.mp h)
      simp [he, hb, hb2]

theorem firstNonAbstaining_cons_abstain (ctx : χ) (d : Decider χ σ) (rest : List (Decider χ σ))
    (m : Mem σ) (a : DecideOut σ) (h : d.DecideOnConnection ctx m = some a) (ha : a.abstains) :
    firstNonAbstaining ctx (d :: rest) m = firstNonAbstaining ctx rest a.mem + 1 := by
  simp [firstNonAbstaining, h, ha]

theorem firstNonAbstaining_cons_stop (ctx : χ) (d : Decider χ σ) (rest : List (Decider χ σ))
    (m : Mem σ) (a : DecideOut σ) (h : d.DecideOnConnection ctx m = some a) (ha : ¬ a.abstains) :
    firstNonAbstaining ctx (d :: rest) m = 0 := by
  simp [firstNonAbstaining, h, ha]

/-- A decider that does not abstain ends the loop right after its own invocation. -/
theorem chainLoop_stop (ctx : χ) (idx : Nat) (d : Decider χ σ) (rest : List (Decider χ σ))
    (m : Mem σ) (calls : List Nat) (a : DecideOut σ)
    (h : d.DecideOnConnection ctx m = some a) (ha : ¬ a.abstains) :
    (chainLoop ctx idx (d :: rest) m calls).map Prod.snd = some (calls ++ [idx]) := by
  cases hae : a.err with
  | some e => simp [chainLoop, h, hae]
  | none =>
    have hnv : a.verdict ≠ .VERDICT_UNDECIDED ∧ a.verdict ≠ .VERDICT_UNDETERMINABLE := by
      constructor <;> intro hv <;> exact ha ⟨hae, by simp [hv]⟩
    cases hav : a.verdict <;> simp_all [chainLoop]

/-- The indices the loop invokes, in terms of the first decider that does not
abstain, provided the calls the loop makes return. -/
theorem chainLoop_calls (ctx : χ) :
    ∀ (ds : List (Decider χ σ)) (idx : Nat) (m : Mem σ) (calls : List Nat),
      (∀ j, j < ds.length → j ≤ firstNonAbstaining ctx ds m → (callAt ctx ds m j).isSome) →
      (chainLoop ctx idx ds m calls).map Prod.snd
        = some (calls ++ List.range' idx (min (firstNonAbstaining ctx ds m + 1) ds.length)) := by
  intro ds
  induction ds with
  | nil => intro idx m calls _; simp [chainLoop]
  | cons d rest ih =>
    intro idx m calls hret
    have h0 := hret 0 (by simp) (Nat.zero_le _)
    obtain ⟨a, hd⟩ : ∃ a, d.DecideOnConnection ctx m = some a := by
      simpa [callAt, Option.isSome_iff_exists] using h0
    by_cases hab : a.abstains
    · have hk := firstNonAbstaining_cons_abstain ctx d rest m a hd hab
      have hret1 : ∀ j, j < rest.length → j ≤ firstNonAbstaining ctx rest a.mem →
          (callAt ctx rest a.mem j).isSome := by
        intro j hj hjk
        rw [← callAt_cons_succ ctx d rest m a hd j]
        exact hret (j + 1) (by simpa using hj) (by omega)
      rw [chainLoop_abstain ctx idx d rest m calls a hd hab, ih (idx + 1) a.mem (calls ++ [idx]) hret1,
        hk]
      have hmin : min (firstNonAbstaining ctx rest a.mem + 1 + 1) (d :: rest).length
          = min (firstNonAbstaining ctx rest a.mem + 1) rest.length + 1 := by
        simp only [List.length_cons]; omega
      rw [hmin, List.range'_succ]
      simp
    · have hk := firstNonAbstaining_cons_stop ctx d rest m a hd hab
      rw [chainLoop_stop ctx idx d rest m calls a hd hab, hk]
      have hmin : min (0 + 1) (d :: rest).length = 1 := by
        simp only [List.length_cons]; omega
      rw [hmin]
      simp

/-- What `firstNonAbstaining` computes: every decider before it abstains, and the
decider at that index, when there is one, does not. -/
theorem firstNonAbstaining_spec (ctx : χ) :
    ∀ (ds : List (Decider χ σ)) (m : Mem σ),
      (∀ j, j < ds.length → j ≤ firstNonAbstaining ctx ds m → (callAt ctx ds m j).isSome) →
      firstNonAbstaining ctx ds m ≤ ds.length
        ∧ (∀ j, j < firstNonAbstaining ctx ds m → ∃ a, callAt ctx ds m j = some a ∧ a.abstains)
        ∧ (firstNonAbstaining ctx ds m < ds.length →
            ∃ r, callAt ctx ds m (firstNonAbstaining ctx ds m) = some r ∧ ¬ r.abstains) := by
  intro ds
  induction ds with
  | nil => intro m _; simp [firstNonAbstaining]
  | cons d rest ih =>
    intro m hret
    have h0 := hret 0 (by simp) (Nat.zero_le _)
    obtain ⟨a, hd⟩ : ∃ a, d.DecideOnConnection ctx m = some a := by
      simpa [callAt, Option.isSome_iff_exists] using h0
    by_cases hab : a.abstains
    · have hk := firstNonAbstaining_cons_abstain ctx d rest m a hd hab
      have hret1 : ∀ j, j < rest.length → j ≤ firstNonAbstaining ctx rest a.mem →
          (callAt ctx rest a.mem j).isSome := by
        intro j hj hjk
        rw [← callAt_cons_succ ctx d rest m a hd j]
        exact hret (j + 1) (by simpa using hj) (by omega)
      obtain ⟨hle, hpre, hat⟩ := ih a.mem hret1
      rw [hk]
      refine ⟨by simpa using hle, ?_, ?_⟩
      · intro j hj
        cases j with
        | zero => exact ⟨a, by simpa [callAt] using hd, hab⟩
        | succ j =>
          rw [callAt_cons_succ ctx d rest m a hd j]
          exact hpre j (by omega)
      · intro hlt
        rw [callAt_cons_succ ctx d rest m a hd _]
        exact hat (by simpa using hlt)
    · have hk := firstNonAbstaining_cons_stop ctx d rest m a hd hab
      rw [hk]
      exact ⟨Nat.zero_le _, by simp, fun _ => ⟨a, by simpa [callAt] using hd, hab⟩⟩

theorem count_range_eq (n j : Nat) : (List.range n).count j = if j < n then 1 else 0 := by
  by_cases h : j < n
  · rw [if_pos h]
    exact List.count_eq_one_of_mem (List.nodup_range n) (List.mem_range.2 h)
  · rw [if_neg h]
    exact List.count_eq_zero_of_not_mem (fun hm => h (List.mem_range.1 hm))

theorem range'_zero_append (i : Nat) : List.range' 0 i ++ [i] = List.range (i + 1) := by
  rw [List.range_eq_range', List.range'_concat]; simp

end Lemmas

/-! ## ChainDeciders: the contract -/

/-- C1. If every decider before index `i` abstains (nil error, verdict Undecided or
Undeterminable) and decider `i` returns `(v, reason, nil)` with `v` none of
Undecided, Undeterminable, Failed, then the chained decider returns exactly
`(v, reason, nil)`, in the memory decider `i` left, and has invoked exactly the
deciders `0, …, i`: nothing is assumed about the deciders after `i`, and none
of them is invoked. -/
theorem chain_first_terminal_verdict_wins {χ σ : Type} (ds : List (Decider χ σ)) (ctx : χ)
    (m : Mem σ) (i : Nat) (v : Verdict) (reason : String) (m1 : Mem σ)
    (hpre : ∀ j, j < i → ∃ a, callAt ctx ds m j = some a ∧ a.abstains)
    (hi : callAt ctx ds m i = some { verdict := v, reason := reason, err := none, mem := m1 })
    (hU : v ≠ .VERDICT_UNDECIDED) (hD : v ≠ .VERDICT_UNDETERMINABLE) (hF : v ≠ .VERDICT_FAILED) :
    ChainDeciders ds ctx m = some { verdict := v, reason := reason, err := none, mem := m1 }
      ∧ (ChainDecidersTraced ds ctx m).map Prod.snd = some (List.range (i + 1)) := by
  obtain ⟨d, rest, m0, _, hcall, hloop⟩ := chainLoop_skip ctx ds i 0 m [] _ hpre hi
  have hrun : ChainDecidersTraced ds ctx m
      = some ({ verdict := v, reason := reason, err := none, mem := m1 }, List.range (i + 1)) := by
    unfold ChainDecidersTraced
    rw [hloop, ← range'_zero_append i]
    cases v <;> simp_all [chainLoop]
  simp [ChainDeciders, hrun]

/-- C1, at the chain `[D1 → Undeterminable, D2 → Accept("own"), D3 → Block]`: the
result is `(Accept, "own", nil)` and only deciders 0 and 1 are invoked. -/
theorem chain_first_terminal_verdict_wins_witness :
    ChainDeciders sampleChainAccept () sampleMem
        = some { verdict := .VERDICT_ACCEPT, reason := "own", err := none, mem := sampleMem }
      ∧ (ChainDecidersTraced sampleChainAccept () sampleMem).map Prod.snd
        = some (List.range (1 + 1)) :=
  chain_first_terminal_verdict_wins sampleChainAccept () sampleMem 1 .VERDICT_ACCEPT "own"
    sampleMem
    (fun j hj => by
      have hj0 : j = 0 := by omega
      subst hj0
      exact ⟨_, rfl, rfl, Or.inr rfl⟩)
    rfl (by decide) (by decide) (by decide)

/-- C2. If every decider before index `i` abstains and decider `i` returns
`(v, reason, err)` with `err` non-nil, then the chained decider returns exactly
that verdict, that reason and that same error, whatever `v` is, and has invoked
exactly the deciders `0, …, i`. -/
theorem chain_propagates_error {χ σ : Type} (ds : List (Decider χ σ)) (ctx : χ)
    (m : Mem σ) (i : Nat) (v : Verdict) (reason : String) (e : GoError) (m1 : Mem σ)
    (hpre : ∀ j, j < i → ∃ a, callAt ctx ds m j = some a ∧ a.abstains)
    (hi : callAt ctx ds m i = some { verdict := v, reason := reason, err := some e, mem := m1 }) :
    ChainDeciders ds ctx m = some { verdict := v, reason := reason, err := some e, mem := m1 }
      ∧ (ChainDecidersTraced ds ctx m).map Prod.snd = some (List.range (i + 1)) := by
  obtain ⟨d, rest, m0, _, hcall, hloop⟩ := chainLoop_skip ctx ds i 0 m [] _ hpre hi
  have hrun : ChainDecidersTraced ds ctx m
      = some ({ verdict := v, reason := reason, err := some e, mem := m1 },
          List.range (i + 1)) := by
    unfold ChainDecidersTraced
    rw [hloop, ← range'_zero_append i]
    simp [chainLoop, hcall]
  simp [ChainDeciders, hrun]

/-- C2, at the chain `[D1 → Undecided, D2 → (Undeterminable, "", transportErr)]`:
the result is `(Undeterminable, "", transportErr)`. -/
theorem chain_propagates_error_witness :
    ChainDeciders sampleChainError () sampleMem
        = some { verdict := .VERDICT_UNDETERMINABLE, reason := "", err := some transportErr,
                 mem := sampleMem }
      ∧ (ChainDecidersTraced sampleChainError () sampleMem).map Prod.snd
        = some (List.range (1 + 1)) :=
  chain_propagates_error sampleChainError () sampleMem 1 .VERDICT_UNDETERMINABLE ""
    transportErr sampleMem
    (fun j hj => by
      have hj0 : j = 0 := by omega
      subst hj0
      exact ⟨_, rfl, rfl, Or.inl rfl⟩)
    rfl

/-- C3. If every decider before index `i` abstains and decider `i` returns
`(Failed, reason, nil)`, then the chained decider returns the verdict Failed (and
that reason) with a non-nil error; the error is the one
`fmt.Errorf("chained decider at index %d return VERDICT_FAILED", i)` builds, so
its message contains the decimal form of the zero-based index `i`; and the
deciders invoked are exactly `0, …, i`, so decider `i + 1` is not reached. -/
theorem chain_failed_verdict_becomes_error {χ σ : Type} (ds : List (Decider χ σ)) (ctx : χ)
    (m : Mem σ) (i : Nat) (reason : String) (m1 : Mem σ)
    (hpre : ∀ j, j < i → ∃ a, callAt ctx ds m j = some a ∧ a.abstains)
    (hi : callAt ctx ds m i
      = some { verdict := .VERDICT_FAILED, reason := reason, err := none, mem := m1 }) :
    (∃ e : GoError,
        ChainDeciders ds ctx m
          = some { verdict := .VERDICT_FAILED, reason := reason, err := some e, mem := m1 }
        ∧ e = errChainedFailed i
        ∧ ∃ before after : String, e.Error = before ++ Nat.repr i ++ after)
      ∧ (ChainDecidersTraced ds ctx m).map Prod.snd = some (List.range (i + 1)) := by
  obtain ⟨d, rest, m0, _, hcall, hloop⟩ := chainLoop_skip ctx ds i 0 m [] _ hpre hi
  have hrun : ChainDecidersTraced ds ctx m
      = some ({ verdict := .VERDICT_FAILED, reason := reason,
                err := some (errChainedFailed i), mem := m1 }, List.range (i + 1)) := by
    unfold ChainDecidersTraced
    rw [hloop, ← range'_zero_append i]
    simp [chainLoop, hcall]
  refine ⟨⟨errChainedFailed i, by simp [ChainDeciders, hrun], rfl,
    "chained decider at index ", " return VERDICT_FAILED", rfl⟩, by simp [hrun]⟩

/-- C3, at the chain `[D1 → Undecided, D2 → Failed("broken"), D3 → Accept]`: the
result is Failed with an error naming index 1, and decider 2 is not invoked. -/
theorem chain_failed_verdict_becomes_error_witness :
    (∃ e : GoError,
        ChainDeciders sampleChainFailed () sampleMem
          = some { verdict := .VERDICT_FAILED, reason := "broken", err := some e,
                   mem := sampleMem }
        ∧ e = errChainedFailed 1
        ∧ ∃ before after : String, e.Error = before ++ Nat.repr 1 ++ after)
      ∧ (ChainDecidersTraced sampleChainFailed () sampleMem).map Prod.snd
        = some (List.range (1 + 1)) :=
  chain_failed_verdict_becomes_error sampleChainFailed () sampleMem 1 "broken" sampleMem
    (fun j hj => by
      have hj0 : j = 0 := by omega
      subst hj0
      exact ⟨_, rfl, rfl, Or.inl rfl⟩)
    rfl

/-- C4. If every decider of the chain (the empty chain included) returns Undecided
or Undeterminable with a nil error, with any reason, then the chained decider
returns `(Undecided, "", nil)`, in the memory the last decider left, having
invoked every decider once, in order. -/
theorem chain_all_abstain_undecided {χ σ : Type} (ds : List (Decider χ σ)) (ctx : χ) (m : Mem σ)
    (h : ∀ j, j < ds.length → ∃ a, callAt ctx ds m j = some a ∧ a.abstains) :
    ∃ m1, memAfter ctx ds m ds.length = some m1
      ∧ ChainDeciders ds ctx m
        = some { verdict := .VERDICT_UNDECIDED, reason := "", err := none, mem := m1 }
      ∧ (ChainDecidersTraced ds ctx m).map Prod.snd = some (List.range ds.length) := by
  obtain ⟨m1, hm1, hloop⟩ := chainLoop_all_abstain ctx ds 0 m [] h
  refine ⟨m1, hm1, ?_, ?_⟩
  · simp [ChainDeciders, ChainDecidersTraced, hloop]
  · simp [ChainDecidersTraced, hloop, List.range_eq_range']

/-- C4, at the chain `[D1 → Undeterminable("no rule"), D2 → Undeterminable("offline")]`:
the result is `(Undecided, "", nil)`, not Undeterminable, and the reasons are gone. -/
theorem chain_all_abstain_undecided_witness :
    ∃ m1, memAfter () sampleChainAbstain sampleMem sampleChainAbstain.length = some m1
      ∧ ChainDeciders sampleChainAbstain () sampleMem
        = some { verdict := .VERDICT_UNDECIDED, reason := "", err := none, mem := m1 }
      ∧ (ChainDecidersTraced sampleChainAbstain () sampleMem).map Prod.snd
        = some (List.range sampleChainAbstain.length) :=
  chain_all_abstain_undecided sampleChainAbstain () sampleMem
    (fun j hj => by
      have hj01 : j = 0 ∨ j = 1 := by
        simp only [sampleChainAbstain, List.length_cons, List.length_nil] at hj
        omega
      rcases hj01 with h0 | h1
      · subst h0; exact ⟨_, rfl, rfl, Or.inr rfl⟩
      · subst h1; exact ⟨_, rfl, rfl, Or.inr rfl⟩)

/-- C5 as stated fails: the chain `[D1 → (Accept, "", transportErr)]` returns the
verdict Accept together with a non-nil error, and no decider of the chain
returned anything with a nil error. -/
theorem chain_policy_verdict_counterexample :
    ChainDeciders sampleChainAcceptError () sampleMem
        = some { verdict := .VERDICT_ACCEPT, reason := "", err := some transportErr,
                 mem := sampleMem }
      ∧ ¬ ∃ i a, callAt () sampleChainAcceptError sampleMem i = some a ∧ a.err = none := by
  refine ⟨rfl, ?_⟩
  rintro ⟨i, a, h, he⟩
  cases i with
  | zero =>
    simp only [callAt, sampleChainAcceptError, constDecider, Option.some.injEq] at h
    subst h
    simp at he
  | succ i => simp [callAt, sampleChainAcceptError, constDecider] at h

/-- C5, amended. If the chained decider returns the verdict Accept, Block or Drop,
then some decider `i` of the chain, reached after all deciders before it
abstained, returned exactly what the chain returns: the same verdict, the same
reason and the same error, nil or not. So the chain's error is nil exactly when
that decider's error was nil, and a policy verdict with a nil error is always a
decider's own non-error opinion. -/
theorem chain_policy_verdict_from_decider {χ σ : Type} (ds : List (Decider χ σ)) (ctx : χ)
    (m : Mem σ) (out : DecideOut σ)
    (hout : ChainDeciders ds ctx m = some out)
    (hv : out.verdict = .VERDICT_ACCEPT ∨ out.verdict = .VERDICT_BLOCK
      ∨ out.verdict = .VERDICT_DROP) :
    ∃ i, i < ds.length
      ∧ (∀ j, j < i → ∃ a, callAt ctx ds m j = some a ∧ a.abstains)
      ∧ callAt ctx ds m i = some out := by
  have hrun : ∃ calls1, chainLoop ctx 0 ds m [] = some (out, calls1) := by
    simp only [ChainDeciders, ChainDecidersTraced, Option.map_eq_some'] at hout
    obtain ⟨⟨o, c⟩, h1, h2⟩ := hout
    exact ⟨c, by rw [h1]; simp at h2; rw [h2]⟩
  obtain ⟨calls1, hrun⟩ := hrun
  rcases chainLoop_inv ctx ds 0 m [] out calls1 hrun with
    ⟨hu, _⟩ | ⟨i, r, hi, hpre, hcall, _, hrv, hrr, hrm, he, _⟩
  · rw [hu] at hv; simp at hv
  · refine ⟨i, hi, hpre, ?_⟩
    have herr : out.err = r.err := by
      rcases he with he | ⟨_, hf, _⟩
      · exact he
      · rw [hrv, hf] at hv; simp at hv
    rw [hcall]
    cases out; cases r
    simp_all

/-- C5 amended, at the chain `[D1 → Undeterminable, D2 → Accept("own"), D3 → Block]`. -/
theorem chain_policy_verdict_from_decider_witness :
    ∃ i, i < sampleChainAccept.length
      ∧ (∀ j, j < i → ∃ a, callAt () sampleChainAccept sampleMem j = some a ∧ a.abstains)
      ∧ callAt () sampleChainAccept sampleMem i
        = some { verdict := .VERDICT_ACCEPT, reason := "own", err := none, mem := sampleMem } :=
  chain_policy_verdict_from_decider sampleChainAccept () sampleMem
    { verdict := .VERDICT_ACCEPT, reason := "own", err := none, mem := sampleMem }
    rfl (Or.inl rfl)

/-! ## The self-traffic filter: the contract -/

/-- C6 as stated fails: for `ownConn`, whose binary path is the executable path,
`IsSelf` reports a match, and the decider of `AllowPluginConnections` returns
Accept with a nil error, but its reason is not "own traffic". -/
theorem allowPluginConnections_reason_counterexample :
    (IsSelf sampleOS ownMem.vars ownMem.conn).1 = (true, none)
      ∧ ∃ r, AllowPluginConnections sampleOS () ownMem = some r
          ∧ r.verdict = .VERDICT_ACCEPT ∧ r.err = none ∧ r.reason ≠ "own traffic" := by
  have h : (IsSelf sampleOS ownMem.vars ownMem.conn).1 = (true, none) := by
    simp [IsSelf, getExecPath, sampleOS, ownMem, ownConn, ExecPathVars.zero,
      Process.GetBinaryPath, Connection.GetProcess]
  refine ⟨h, ?_⟩
  simp [AllowPluginConnections, h]

/-- C6, amended. For every connection for which `IsSelf` reports a match (it returns
`true` with a nil error), the decider returned by `AllowPluginConnections`
returns exactly `(Accept, "own plugin connections are allowed", nil)`, and leaves
the package variables as `getExecPath` leaves them. -/
theorem allowPluginConnections_accepts_self {χ σ : Type} (os : OS) (ctx : χ) (m : Mem σ)
    (hself : (IsSelf os m.vars m.conn).1 = (true, none)) :
    AllowPluginConnections os ctx m
      = some { verdict := .VERDICT_ACCEPT, reason := "own plugin connections are allowed",
               err := none, mem := { m with vars := getExecPath os m.vars } } := by
  have hvars : (IsSelf os m.vars m.conn).2 = getExecPath os m.vars := by
    rw [IsSelf_eq_spec]
  have h1 : (IsSelf os m.vars m.conn).1.1 = true := by rw [hself]
  have h2 : (IsSelf os m.vars m.conn).1.2 = none := by rw [hself]
  simp [AllowPluginConnections, h1, h2, hvars]

/-- C6 amended, at `ownConn` on `sampleOS`. -/
theorem allowPluginConnections_accepts_self_witness :
    AllowPluginConnections sampleOS () ownMem
      = some { verdict := .VERDICT_ACCEPT, reason := "own plugin connections are allowed",
               err := none, mem := { ownMem with vars := getExecPath sampleOS ownMem.vars } } :=
  allowPluginConnections_accepts_self sampleOS () ownMem
    (by simp [IsSelf, getExecPath, sampleOS, ownMem, ownConn, ExecPathVars.zero,
      Process.GetBinaryPath, Connection.GetProcess])

/-- C7. Write `g1` for the package variables after `getExecPath` (the result of the
one-time initialisation, made by this call or cached by an earlier one). Then
`IsSelf` answers as the specification says from `g1`: with a nil cached error,
`(true, nil)` exactly when the binary path of the connection equals the raw or
the resolved executable path, else `(false, nil)`; with a cached error `e`,
`(false, e)`. Every later call, for any connection and whatever the operating
system would now answer, leaves `g1` as it is and answers from it again, so a
cached error is returned each time. -/
theorem isSelf_cached_identity (os os2 : OS) (g : ExecPathVars) (conn conn2 : Option Connection) :
    IsSelf os g conn
        = (isSelfSpec (getExecPath os g).executablePath
            (getExecPath os g).resolvedExecutablePath (getExecPath os g).errGetExecPath conn,
           getExecPath os g)
      ∧ IsSelf os2 (getExecPath os g) conn2
        = (isSelfSpec (getExecPath os g).executablePath
            (getExecPath os g).resolvedExecutablePath (getExecPath os g).errGetExecPath conn2,
           getExecPath os g)
      ∧ (∀ e, (getExecPath os g).errGetExecPath = some e →
          (IsSelf os g conn).1 = (false, some e)
            ∧ (IsSelf os2 (getExecPath os g) conn2).1 = (false, some e)) := by
  have h1 := IsSelf_eq_spec os g conn
  have h2 := IsSelf_eq_spec os2 (getExecPath os g) conn2
  rw [getExecPath_idem os os2 g] at h2
  refine ⟨h1, h2, ?_⟩
  intro e he
  rw [h1, h2]
  simp [isSelfSpec, he]

/-- C7, where resolving symlinks failed: `ownConn` has the raw executable path as its
binary path, and still both the first and a later call return `false` with the
cached error. -/
theorem isSelf_cached_identity_witness :
    (IsSelf brokenOS ExecPathVars.zero (some ownConn)).1
        = (false, some (.text "lstat /usr/bin/plugin: permission denied"))
      ∧ (IsSelf sampleOS (getExecPath brokenOS ExecPathVars.zero) (some ownConn)).1
        = (false, some (.text "lstat /usr/bin/plugin: permission denied")) :=
  (isSelf_cached_identity brokenOS sampleOS ExecPathVars.zero (some ownConn) (some ownConn)).2.2
    (.text "lstat /usr/bin/plugin: permission denied")
    (by simp [getExecPath, brokenOS, ExecPathVars.zero])

/-! ## Encryption detection: the contract -/

/-- C8. For an outbound connection whose remote port is 443, 465, 993 or 995,
`HandlePacket` sets the `Encrypted` flag to true and issues one persistence
request; for an inbound connection or any other port it leaves the connection,
every field of it, as it is and issues no persistence request. -/
theorem detector_marks_outbound_encrypted_ports {P : Type} (d : Detector) (s : InspectMem)
    (pkt : P) :
    ((s.conn.Inbound = false
        ∧ (s.conn.Entity.Port = 443 ∨ s.conn.Entity.Port = 465 ∨ s.conn.Entity.Port = 993
            ∨ s.conn.Entity.Port = 995)) →
        (d.HandlePacket s pkt).mem
          = { conn := { s.conn with Encrypted := true }, saveRequests := s.saveRequests + 1 })
      ∧ (¬ (s.conn.Inbound = false
          ∧ (s.conn.Entity.Port = 443 ∨ s.conn.Entity.Port = 465 ∨ s.conn.Entity.Port = 993
              ∨ s.conn.Entity.Port = 995)) →
        (d.HandlePacket s pkt).mem = s) := by
  constructor
  · rintro ⟨hin, hp⟩
    rcases hp with hp | hp | hp | hp <;>
      simp [Detector.HandlePacket, SaveWhenFinished, hin, hp]
  · intro h
    unfold Detector.HandlePacket
    by_cases hin : s.conn.Inbound = false
    · have hp : ¬ (s.conn.Entity.Port = 443 ∨ s.conn.Entity.Port = 465
          ∨ s.conn.Entity.Port = 993 ∨ s.conn.Entity.Port = 995) := fun hp => h ⟨hin, hp⟩
      simp only [hin, Bool.not_false, if_true]
      split <;> simp_all
    · simp [hin]

/-- C8, at an outbound and at an inbound connection to port 443. -/
theorem detector_marks_outbound_encrypted_ports_witness :
    (({} : Detector).HandlePacket sampleOutbound ()).mem
        = { conn := { sampleOutbound.conn with Encrypted := true },
            saveRequests := sampleOutbound.saveRequests + 1 }
      ∧ (({} : Detector).HandlePacket sampleInbound ()).mem = sampleInbound :=
  ⟨(detector_marks_outbound_encrypted_ports {} sampleOutbound ()).1 ⟨rfl, Or.inl rfl⟩,
   (detector_marks_outbound_encrypted_ports {} sampleInbound ()).2 (by decide)⟩

/-- C9. For every connection and every packet, `HandlePacket` returns the verdict
Undeterminable with a nil reason and a nil error, and the verdict and reason
recorded in the connection are what they were before the call. -/
theorem detector_never_blocks {P : Type} (d : Detector) (s : InspectMem) (pkt : P) :
    (d.HandlePacket s pkt).verdict = .VerdictUndeterminable
      ∧ (d.HandlePacket s pkt).reason = none
      ∧ (d.HandlePacket s pkt).err = none
      ∧ (d.HandlePacket s pkt).mem.conn.Verdict = s.conn.Verdict
      ∧ (d.HandlePacket s pkt).mem.conn.Reason = s.conn.Reason := by
  refine ⟨rfl, rfl, rfl, ?_, ?_⟩ <;>
    · unfold Detector.HandlePacket
      simp only
      split
      · split <;> rfl
      · rfl

/-! ## ChainDeciderFunc -/

/-- C10. The slice `ChainDeciderFunc` builds holds the given functions, in order,
each as a decider whose `DecideOnConnection` calls the function; so for every
list of functions, context and memory, `ChainDeciderFunc(fns...)` returns what
`ChainDeciders` returns on these deciders, leaves the same memory, and invokes
the same indices in the same order. -/
theorem chainDeciderFunc_eq_chainDeciders {χ σ : Type} (fns : List (DeciderFunc χ σ)) (ctx : χ)
    (m : Mem σ) :
    boxDeciderFuncs fns = fns.map DeciderFunc.toDecider
      ∧ (∀ (fn : DeciderFunc χ σ) (c : χ) (m0 : Mem σ),
          fn.toDecider.DecideOnConnection c m0 = fn c m0)
      ∧ ChainDeciderFunc fns ctx m = ChainDeciders (fns.map DeciderFunc.toDecider) ctx m
      ∧ ChainDeciderFuncTraced fns ctx m
        = ChainDecidersTraced (fns.map DeciderFunc.toDecider) ctx m := by
  refine ⟨boxDeciderFuncs_eq_map fns, fun _ _ _ => rfl, ?_, ?_⟩
  · rw [ChainDeciderFunc, boxDeciderFuncs_eq_map]
  · rw [ChainDeciderFuncTraced, boxDeciderFuncs_eq_map]

/-! ## ChainDeciders: the order of invocation -/

/-- C11. Let `k` be the least index whose decider does not abstain (returns a
non-nil error or a verdict other than Undecided and Undeterminable), and the
length of the list when there is none; the deciders are taken to return when
invoked. Then every decider before `k` abstains and decider `k`, when there is
one, does not; the chained decider returns, and the sequence of its decider
invocations is that of the deciders of the list with index `0, 1, …, k`, in
registration order: `0, …, k` when there is a decider `k`, and every decider
`0, …, length - 1` when all abstain and `k` is the length. Each of these is
invoked exactly once, and no decider with index greater than `k` is invoked. -/
theorem chain_invocation_order {χ σ : Type} (ds : List (Decider χ σ)) (ctx : χ) (m : Mem σ)
    (hret : ∀ j, j < ds.length → j ≤ firstNonAbstaining ctx ds m → (callAt ctx ds m j).isSome) :
    firstNonAbstaining ctx ds m ≤ ds.length
      ∧ (∀ j, j < firstNonAbstaining ctx ds m → ∃ a, callAt ctx ds m j = some a ∧ a.abstains)
      ∧ (firstNonAbstaining ctx ds m < ds.length →
          ∃ r, callAt ctx ds m (firstNonAbstaining ctx ds m) = some r ∧ ¬ r.abstains)
      ∧ (ChainDecidersTraced ds ctx m).map Prod.snd
          = some (List.range (min (firstNonAbstaining ctx ds m + 1) ds.length))
      ∧ (firstNonAbstaining ctx ds m < ds.length →
          (ChainDecidersTraced ds ctx m).map Prod.snd
            = some (List.range (firstNonAbstaining ctx ds m + 1)))
      ∧ (firstNonAbstaining ctx ds m = ds.length →
          (ChainDecidersTraced ds ctx m).map Prod.snd = some (List.range ds.length))
      ∧ (∀ calls, (ChainDecidersTraced ds ctx m).map Prod.snd = some calls →
          ∀ j, calls.count j
            = if j ≤ firstNonAbstaining ctx ds m ∧ j < ds.length then 1 else 0) := by
  obtain ⟨hle, hpre, hat⟩ := firstNonAbstaining_spec ctx ds m hret
  have hcalls : (ChainDecidersTraced ds ctx m).map Prod.snd
      = some (List.range (min (firstNonAbstaining ctx ds m + 1) ds.length)) := by
    have h := chainLoop_calls ctx ds 0 m [] hret
    simpa [ChainDecidersTraced, List.range_eq_range'] using h
  refine ⟨hle, hpre, hat, hcalls, ?_, ?_, ?_⟩
  · intro hlt
    rw [hcalls, Nat.min_eq_left (by omega)]
  · intro heq
    rw [hcalls, Nat.min_eq_right (by omega)]
  · intro calls hc j
    rw [hcalls] at hc
    have hc1 : calls = List.range (min (firstNonAbstaining ctx ds m + 1) ds.length) := by
      simpa using hc.symm
    rw [hc1, count_range_eq]
    by_cases hj : j ≤ firstNonAbstaining ctx ds m ∧ j < ds.length
    · rw [if_pos hj, if_pos (by omega)]
    · rw [if_neg hj, if_neg (by omega)]

/-- C11, at the chain `[D1 → Undeterminable, D2 → Accept("own"), D3 → Block]`:
the result is `(Accept, "own", nil)`, the invocations are those of the deciders 0
and 1, and decider 2 is not invoked. -/
theorem chain_invocation_order_witness :
    ChainDeciders sampleChainAccept () sampleMem
        = some { verdict := .VERDICT_ACCEPT, reason := "own", err := none, mem := sampleMem }
      ∧ firstNonAbstaining () sampleChainAccept sampleMem = 1
      ∧ (ChainDecidersTraced sampleChainAccept () sampleMem).map Prod.snd
        = some (List.range (firstNonAbstaining () sampleChainAccept sampleMem + 1))
      ∧ ∀ calls, (ChainDecidersTraced sampleChainAccept () sampleMem).map Prod.snd = some calls →
          calls.count 2 = 0 :=
  have hret : ∀ j, j < sampleChainAccept.length →
      j ≤ firstNonAbstaining () sampleChainAccept sampleMem →
      (callAt () sampleChainAccept sampleMem j).isSome := fun j hj _ => by
    have hj012 : j = 0 ∨ j = 1 ∨ j = 2 := by
      simp only [sampleChainAccept, List.length_cons, List.length_nil] at hj
      omega
    rcases hj012 with h | h | h <;> subst h <;> rfl
  ⟨rfl, rfl,
    (chain_invocation_order sampleChainAccept () sampleMem hret).2.2.2.2.1 (by decide),
    fun calls hc =>
      ((chain_invocation_order sampleChainAccept () sampleMem hret).2.2.2.2.2.2 calls hc 2).trans
        (by decide)⟩

end Portmaster
